import Mathlib

/-!
Verification of the playwright-google-login repository: a shallow embedding
of its account store, task pool, login-flow driver and window placement
logic, with theorems settling the specification's claims about them.

Sources embedded (file and function names follow the repository):
* `src/accountManager.ts` : `parseAccounts`, `getNextAccount`, `markAccountAsUsed`
* `src/pool.ts`           : `addTasks` loop, `run` admission loop, `executeTask`
* `src/googleLogin.ts`    : the URL-dispatch login loop, `waitForManualVerification`
* `src/browserManager.ts` : `calculateWindowPosition`
* `src/index.ts`          : `main` (per-task session handling)
-/

/-! ## String helpers with JavaScript semantics -/

/-- The character class of JavaScript's regex `\s` (also the set trimmed by
`String.prototype.trim`): ASCII whitespace, NBSP, the Unicode space
separators, line separators and the BOM. -/
def isJsWs (c : Char) : Bool :=
  c = '\t' || c = '\n' || c = '\x0b' || c = '\x0c' || c = '\r' || c = ' ' ||
  c = ' ' || c = ' ' || (decide (' ' ≤ c) && decide (c ≤ ' ')) ||
  c = ' ' || c = ' ' || c = ' ' || c = ' ' ||
  c = '　' || c = '﻿'

/-- JavaScript `String.prototype.trim`: drop leading and trailing whitespace. -/
def jsTrim (s : String) : String :=
  ⟨((s.data.dropWhile isJsWs).reverse.dropWhile isJsWs).reverse⟩

/-- JavaScript `str.replace(/\s/g, "")`: remove every whitespace character. -/
def stripJsWs (s : String) : String :=
  ⟨s.data.filter (fun c => !isJsWs c)⟩

/-- `listPre p l` : the list `p` occurs at the start of `l`
(JavaScript `startsWith` on the character level). -/
def listPre : List Char → List Char → Bool
  | [], _ => true
  | _ :: _, [] => false
  | p :: ps, c :: cs => p = c && listPre ps cs

/-- `listSub p l` : the list `p` occurs contiguously somewhere in `l`. -/
def listSub (p : List Char) : List Char → Bool
  | [] => p.isEmpty
  | c :: cs => listPre p (c :: cs) || listSub p cs

/-- JavaScript `s.includes(pat)`. -/
def sIncludes (s pat : String) : Bool :=
  listSub pat.data s.data

/-- JavaScript `s.startsWith(pat)`. -/
def sStarts (s pat : String) : Bool :=
  listPre pat.data s.data

/-- Split a character list at every occurrence of `sep`, keeping empty
pieces; the result is never empty. -/
def splitChar (sep : Char) : List Char → List (List Char)
  | [] => [[]]
  | c :: cs =>
    match splitChar sep cs with
    | [] => [[]]
    | h :: t => if c = sep then [] :: h :: t else (c :: h) :: t

/-- JavaScript `s.split(sep)` for a single-character separator. -/
def jsSplit (s : String) (sep : Char) : List String :=
  (splitChar sep s.data).map (⟨·⟩)

/-! ## Account store (`src/accountManager.ts`) -/

/-- The `AccountInfo` interface of `accountManager.ts`. -/
structure AccountInfo where
  email : String
  password : String
  twoStepCode : String
  isTotp : Bool
deriving DecidableEq, Repr

/-- The TOTP classifier of `parseAccounts`:
`/^[A-Z0-9]{16,}$/.test(twoStepCode.replace(/\s/g, ""))`. -/
def totpTest (s : String) : Bool :=
  let t := (stripJsWs s).data
  decide (16 ≤ t.length) &&
    t.all (fun c =>
      (decide ('A' ≤ c) && decide (c ≤ 'Z')) || (decide ('0' ≤ c) && decide (c ≤ '9')))

/-- One iteration of the `for (const line of lines)` body of
`AccountManager.parseAccounts`: split the line on tabs, trim each part, and
build an `AccountInfo` when at least three fields are present. -/
def parseLine (line : String) : Option AccountInfo :=
  let parts := (jsSplit line '\t').map jsTrim
  if 3 ≤ parts.length then
    some { email := parts.getD 0 "", password := parts.getD 1 "",
           twoStepCode := parts.getD 2 "", isTotp := totpTest (parts.getD 2 "") }
  else none

/-- `AccountManager.parseAccounts`: split the file on newlines, keep lines
whose trim is non-empty, and parse each. -/
def parseAccounts (content : String) : List AccountInfo :=
  ((jsSplit content '\n').filter (fun l => !(jsTrim l).isEmpty)).filterMap parseLine

/-- A "valid line" in the spec's sense: non-empty after trimming, and with at
least three tab-separated fields. -/
def validLine (line : String) : Bool :=
  !(jsTrim line).isEmpty && decide (3 ≤ (jsSplit line '\t').length)

/-- The spec's wording of the rotating-code classification: the third field,
after stripping all whitespace, is uppercase-alphanumeric of length ≥ 16. -/
def RotatingCodeSpec (s : String) : Prop :=
  16 ≤ (stripJsWs s).data.length ∧
    ∀ c ∈ (stripJsWs s).data, ('A' ≤ c ∧ c ≤ 'Z') ∨ ('0' ≤ c ∧ c ≤ '9')

/-- The mutable state of `AccountManager`: the parsed account list and the
used-set (a JavaScript `Set<string>`, modelled as its insertion-ordered,
duplicate-free element list). -/
structure AccountManagerState where
  accounts : List AccountInfo
  usedAccounts : List String
deriving DecidableEq, Repr

/-- `AccountManager.markAccountAsUsed`: `this.usedAccounts.add(email)`.
A `Set` ignores an element already present. -/
def markAccountAsUsed (s : AccountManagerState) (email : String) : AccountManagerState :=
  if s.usedAccounts.contains email then s
  else { s with usedAccounts := s.usedAccounts ++ [email] }

/-- `AccountManager.getNextAccount`: return the first account whose email is
not in the used-set; failing that, when `usedAccounts.size === accounts.length`
clear the used-set and return `accounts[0]` (or `null` on an empty store),
else return `null`.  The second component is the manager state afterwards. -/
def getNextAccount (s : AccountManagerState) : Option AccountInfo × AccountManagerState :=
  match s.accounts.find? (fun a => !s.usedAccounts.contains a.email) with
  | some a => (some a, s)
  | none =>
    if s.usedAccounts.length = s.accounts.length then
      (s.accounts.head?, { s with usedAccounts := [] })
    else
      (none, s)

/-- The `for (let i = 1; i <= taskCount; i++)` loop of `TaskPool.addTasks`,
recursing on the remaining count: draw an account with `getNextAccount`
(skipping the iteration when it returns `null`, as the `continue` branch
does), build a task for it, and mark it used.  Returns the accounts assigned
to the created tasks, in order, with the final manager state. -/
def addTasksLoop : Nat → AccountManagerState → List AccountInfo × AccountManagerState
  | 0, s => ([], s)
  | n + 1, s =>
    match getNextAccount s with
    | (none, s1) => addTasksLoop n s1
    | (some a, s1) =>
      let s2 := markAccountAsUsed s1 a.email
      let r := addTasksLoop n s2
      (a :: r.1, r.2)

/-- The account-store invariant maintained by the pool's use of the manager:
account emails are pairwise distinct (the spec's "identifier, unique per
cycle"), and the used-set is a duplicate-free subset of those emails. -/
abbrev MgrInv (s : AccountManagerState) : Prop :=
  (s.accounts.map AccountInfo.email).Nodup ∧ s.usedAccounts.Nodup ∧
    ∀ e ∈ s.usedAccounts, e ∈ s.accounts.map AccountInfo.email

/-- A concrete credential (the spec's rotating-code example). -/
def acctA : AccountInfo :=
  { email := "user1@gmail.com", password := "pw1",
    twoStepCode := "QEJA633DACRGZM25AD6PHHHYB3MWHACW", isTotp := true }

/-- A concrete credential (the spec's static-secret example). -/
def acctB : AccountInfo :=
  { email := "user2@gmail.com", password := "pw2",
    twoStepCode := "u5pg omhv bx23 stji 7wrw jesx l4ja lfz7", isTotp := false }

/-! ## Task pool (`src/pool.ts` and `src/logger.ts`) -/

/-- The `TaskResult` interface of `logger.ts`. -/
structure TaskResult where
  email : String
  success : Bool
  error : Option String
  duration : Option Nat
  attempts : Nat
deriving DecidableEq, Repr

/-- A pool task as `run()` sees it: its id and the assigned account's email. -/
structure PoolTask where
  id : Nat
  email : String
deriving DecidableEq, Repr

/-- The record `executeTask` logs on its success path: `attempts: 1`
hard-coded, with the measured duration. -/
def successResult (email : String) (duration : Nat) : TaskResult :=
  { email := email, success := true, error := none,
    duration := some duration, attempts := 1 }

/-- The record `executeTask` logs on its failure path: `attempts: 1`
hard-coded, no duration, the caught error text. -/
def failureResult (email err : String) : TaskResult :=
  { email := email, success := false, error := some err,
    duration := none, attempts := 1 }

/-- The observable bookkeeping of `TaskPool.run`: the pending queue
(`this.tasks`), the `runningTasks` set (as the list of tasks currently
running) and the result records appended so far. -/
structure PoolState where
  pending : List PoolTask
  running : List PoolTask
  results : List (PoolTask × TaskResult)
deriving DecidableEq, Repr

/-- One observable transition of `TaskPool.run` under cooperative
scheduling: either the admission loop shifts the next pending task and
starts it (guarded by `runningTasks.size < poolSize`; `executeTask`
synchronously adds the task to `runningTasks`), or a running task finishes
— `executeTask`'s success or failure path appends its record and the
`finally` block removes the task from `runningTasks`. -/
inductive PoolStep (poolSize : Nat) : PoolState → PoolState → Prop
  | launch (t : PoolTask) (rest : List PoolTask) (s : PoolState) :
      s.running.length < poolSize →
      s.pending = t :: rest →
      PoolStep poolSize s ⟨rest, t :: s.running, s.results⟩
  | finishSuccess (t : PoolTask) (d : Nat) (s : PoolState) :
      t ∈ s.running →
      PoolStep poolSize s
        ⟨s.pending, s.running.erase t, (t, successResult t.email d) :: s.results⟩
  | finishFailure (t : PoolTask) (err : String) (s : PoolState) :
      t ∈ s.running →
      PoolStep poolSize s
        ⟨s.pending, s.running.erase t, (t, failureResult t.email err) :: s.results⟩

/-- The states `TaskPool.run` can pass through, starting from a freshly
enqueued pool (nothing running, nothing logged). -/
inductive PoolReach (poolSize : Nat) (init : List PoolTask) : PoolState → Prop
  | start : PoolReach poolSize init ⟨init, [], []⟩
  | step {s s'} : PoolReach poolSize init s → PoolStep poolSize s s' →
      PoolReach poolSize init s'

/-- The inner admission `while`-loop of `run()`: while
`runningTasks.size < poolSize` and tasks remain, shift the next task and
start it.  Returns the pending queue and running set it leaves behind. -/
def admitPhase (poolSize : Nat) : List PoolTask → List PoolTask → List PoolTask × List PoolTask
  | [], running => ([], running)
  | t :: rest, running =>
    if running.length < poolSize then admitPhase poolSize rest (t :: running)
    else (t :: rest, running)

/-! ## Login-flow driver (`src/googleLogin.ts`) -/

/-- The errors thrown by `performGoogleLogin`'s URL-dispatch loop. -/
inductive LoginError
  | invalidCredentials
  | invalidSecondFactor
  | tooManyRetries
  | totpMissing
  | unhandledUrl
deriving DecidableEq, Repr

/-- The page-side action a loop iteration performs before `continue`. -/
inductive DriverAction
  | sleepPoll
  | reload
  | typeEmail
  | typePassword
  | typeTotp
  | clickOauthContinue
  | clickTryOtherMethods
  | clickTwoStepOption
  | manualWait (pattern : String)
  | passThrough
deriving DecidableEq, Repr

/-- The loop-carried state of `performGoogleLogin`: `lastUrl` and
`retryCount` (the stall counter; `-1` is the post-reload sentinel). -/
structure DriverState where
  lastUrl : String
  retryCount : Int
deriving DecidableEq, Repr

/-- The outcome of one iteration of the `while (!isGoogleLogined)` loop. -/
inductive StepResult
  | success
  | fail (e : LoginError)
  | next (s : DriverState) (a : DriverAction)
deriving DecidableEq, Repr

/-- The `noNeedCountUrlMatch` array of `performGoogleLogin`: URL fragments
whose stalls are not counted (manual-intervention and transient states). -/
def noNeedCountUrlMatch : List String :=
  ["challenge/kpe", "challenge/ipe/verify", "challenge/iap", "challenge/recaptcha",
   "challenge/ipp/consent", "accounts/SetSID", "challenge/ipp/verify"]

/-- The five manual-intervention URL patterns: the dispatch arms that call
`waitForManualVerification` unconditionally (recovery-email confirmation,
email-code verification, phone binding, captcha, phone-consent). -/
def manualPatterns : List String :=
  ["challenge/kpe", "challenge/ipe/verify", "challenge/iap", "challenge/recaptcha",
   "challenge/ipp/consent"]

/-- One iteration of `performGoogleLogin`'s dispatch loop, translated branch
by branch.  `twoStepCode` is the account's second-factor material (the code
checks its falsiness), `twoStepOptionShown` is whether the authenticator
option element exists on the page, `rawUrl` is what `page.url()` returned
(the loop strips the query with `split("?")[0]`). -/
def loginStep (twoStepCode : String) (twoStepOptionShown : Bool) (rawUrl : String)
    (s : DriverState) : StepResult :=
  let url := (jsSplit rawUrl '?').headD ""
  if url = s.lastUrl ∧ s.retryCount ≠ -1 then
    if 15 < s.retryCount then
      if sIncludes url "challenge/pwd" then .fail .invalidCredentials
      else if sIncludes url "challenge/totp" then .fail .invalidSecondFactor
      else .fail .tooManyRetries
    else if 5 < s.retryCount ∧ sIncludes url "signin/identifier" = true then
      .next { s with retryCount := -1 } .reload
    else if ¬ (noNeedCountUrlMatch.any (fun p => sIncludes url p)) then
      .next { s with retryCount := s.retryCount + 1 } .sleepPoll
    else
      .next s .sleepPoll
  else
    let s' : DriverState := { lastUrl := url, retryCount := 0 }
    if ¬ sStarts url "https://accounts.google.com/" ∧
        ¬ sIncludes url "challenge/ipp/verify" ∧ ¬ sIncludes url "accounts/SetSID" then
      .success
    else if sIncludes url "signin/identifier" then .next s' .typeEmail
    else if sIncludes url "challenge/pwd" then .next s' .typePassword
    else if sIncludes url "challenge/totp" then
      if twoStepCode = "" then .fail .totpMissing else .next s' .typeTotp
    else if sIncludes url "signin/oauth/id" then .next s' .clickOauthContinue
    else if sIncludes url "signin/challenge/pk/presend" then .next s' .clickTryOtherMethods
    else if sIncludes url "challenge/selection" then
      if twoStepOptionShown then .next s' .clickTwoStepOption
      else .next s' (.manualWait "challenge/selection")
    else if sIncludes url "challenge/kpe" then .next s' (.manualWait "challenge/kpe")
    else if sIncludes url "challenge/ipe/verify" then .next s' (.manualWait "challenge/ipe/verify")
    else if sIncludes url "challenge/iap" then .next s' (.manualWait "challenge/iap")
    else if sIncludes url "challenge/recaptcha" then .next s' (.manualWait "challenge/recaptcha")
    else if sIncludes url "challenge/ipp/consent" then .next s' (.manualWait "challenge/ipp/consent")
    else if sIncludes url "accounts/SetSID" || sIncludes url "challenge/ipp/verify" then
      .next s' .passThrough
    else .fail .unhandledUrl

/-- Run the dispatch loop against a page whose URL is frozen at `url`,
for at most `fuel + 1` iterations: the first non-`next` outcome, or the
outcome of the last iteration. -/
def runFrozen (twoStepCode : String) (opt : Bool) (url : String) (s : DriverState) :
    Nat → StepResult
  | 0 => loginStep twoStepCode opt url s
  | n + 1 =>
    match loginStep twoStepCode opt url s with
    | .next s' _ => runFrozen twoStepCode opt url s' n
    | r => r

/-- The driver state after `n` iterations against a frozen URL, or `none`
if the loop exited (success or failure) beforehand. -/
def frozenStates (twoStepCode : String) (opt : Bool) (url : String) (s0 : DriverState) :
    Nat → Option DriverState
  | 0 => some s0
  | n + 1 =>
    match frozenStates twoStepCode opt url s0 n with
    | some s =>
      match loginStep twoStepCode opt url s with
      | .next s' _ => some s'
      | _ => none
    | none => none

/-- The password-entry URL (query already stripped). -/
def pwdUrl : String := "https://accounts.google.com/v3/signin/challenge/pwd"

/-- The identifier-entry URL (query already stripped). -/
def identUrl : String := "https://accounts.google.com/v3/signin/identifier"

/-- The phone-binding manual-intervention URL (query already stripped). -/
def iapUrl : String := "https://accounts.google.com/v3/signin/challenge/iap"

/-- The states the dispatch loop cycles through on a permanently frozen
identifier-entry URL: arrival, stall counts 0–6, and the post-reload
sentinel. -/
def identOrbit : List DriverState :=
  [⟨"", 0⟩, ⟨identUrl, 0⟩, ⟨identUrl, 1⟩, ⟨identUrl, 2⟩, ⟨identUrl, 3⟩,
   ⟨identUrl, 4⟩, ⟨identUrl, 5⟩, ⟨identUrl, 6⟩, ⟨identUrl, -1⟩]

/-- Decidable one-step check for `identOrbit`: the step stays in the orbit,
keeps the counter at most 6, and does not fail. -/
def identStepOk (s : DriverState) : Bool :=
  match loginStep "pw" false identUrl s with
  | .next s' _ => identOrbit.contains s' && decide (s'.retryCount ≤ 6)
  | _ => false

/-- Did this loop iteration throw? -/
def isFailResult : StepResult → Bool
  | .fail _ => true
  | _ => false

/-- The page-side events of `waitForManualVerification`. -/
inductive ManualEv
  | bringToFront
  | addBorder
  | poll (url : String)
  | removeBorder
deriving DecidableEq, Repr

/-- The polling loop of `waitForManualVerification`, observed for `fuel`
polls starting at poll index `k` of the URL trace `urls`: each second it
reads the URL and exits with the poll index as soon as the URL no longer
contains `pattern`. -/
def waitManualGo (pattern : String) (urls : Nat → String) :
    Nat → Nat → List ManualEv × Option Nat
  | 0, _ => ([], none)
  | fuel + 1, k =>
    if sIncludes (urls k) pattern then
      let r := waitManualGo pattern urls fuel (k + 1)
      (.poll (urls k) :: r.1, r.2)
    else ([.poll (urls k)], some k)

/-- `waitForManualVerification`, observed for at most `fuel` polls: bring
the window to front, add the animated highlight border, poll once per
second until the URL stops matching `pattern` (there is no timeout — with
`fuel` matching polls it is still waiting), then remove the border. -/
def waitForManualVerification (pattern : String) (urls : Nat → String) (fuel : Nat) :
    List ManualEv × Option Nat :=
  let r := waitManualGo pattern urls fuel 0
  ([.bringToFront, .addBorder] ++ r.1 ++ (if r.2.isSome then [.removeBorder] else []), r.2)

/-! ## Per-task session teardown (`src/index.ts` and `executeTask`) -/

/-- The teardown-relevant effects a finished task can produce. -/
inductive TaskEffect
  | killProcess
  | closeBrowser
  | bringToFront
  | removeProfile (email : String)
  | appendRecord (r : TaskResult)
deriving DecidableEq, Repr

/-- The effects of `main` (`index.ts`) after the login attempt, keyed on
`performGoogleLogin`'s outcome (`none` = returned, `some e` = threw `e`):
on success the page is brought to front and the session left open; only on
failure are the browser process killed and the client closed before the
error is rethrown. -/
def mainEffects : Option String → List TaskEffect
  | none => [.bringToFront]
  | some _ => [.killProcess, .closeBrowser]

/-- The effects of `TaskPool.executeTask` around `main`: on either branch it
appends exactly one result record (success with the measured duration, or
failure with the error text — both with `attempts: 1`) and removes the
account's profile folder. -/
def executeTaskEffects (email : String) (d : Nat) : Option String → List TaskEffect
  | none => mainEffects none ++ [.appendRecord (successResult email d), .removeProfile email]
  | some e => mainEffects (some e) ++ [.appendRecord (failureResult email e), .removeProfile email]

/-- Is this effect the appending of a result record? -/
def isAppendRecord : TaskEffect → Bool
  | .appendRecord _ => true
  | _ => false

/-! ## Window placement (`src/browserManager.ts`) -/

/-- JavaScript `ToInt32`: reduce an integer into `[-2^31, 2^31)`. -/
def toInt32 (n : Int) : Int := (n + 2 ^ 31) % 2 ^ 32 - 2 ^ 31

/-- One iteration of `calculateWindowPosition`'s hash loop:
`hash = ((hash << 5) - hash + email.charCodeAt(i)) & 0xffffffff` with
JavaScript's int32 coercions (`<< ` truncates to int32 and wraps;
`& 0xffffffff` is `ToInt32`). -/
def hashStep (hash : Int) (code : Nat) : Int :=
  toInt32 (toInt32 (toInt32 hash * 32) - hash + code)

/-- The hash of `calculateWindowPosition`: seeded with the port, folded
over the email's UTF-16 code units. -/
def calcHash (port : Nat) (email : List Nat) : Int :=
  email.foldl hashStep (port : Int)

/-- `calculateWindowPosition` of `browserManager.ts`: offsets derived from
the hash (`xOffset ∈ [0,8)`, `yOffset ∈ [0,6)` via `Math.abs` and `%`;
`>> 8` is the arithmetic shift, i.e. flooring division by 256), scaled and
clamped to the assumed 1920×1080 screen. -/
def calculateWindowPosition (port : Nat) (email : List Nat) : Int × Int :=
  let hash := calcHash port email
  let xOffset : Nat := hash.natAbs % 8
  let yOffset : Nat := (Int.fdiv hash 256).natAbs % 6
  let x : Int := 50 + xOffset * 150
  let y : Int := 50 + yOffset * 120
  (min x (1920 - 1080 - 50), min y (1080 - 720 - 100))

/-! ## Theorems -/

theorem length_filterMap_eq_countP (f : α → Option β) (l : List α) :
    (l.filterMap f).length = l.countP (fun a => (f a).isSome) := by
  induction l with
  | nil => rfl
  | cons x xs ih =>
    cases h : f x <;>
      simp [List.filterMap_cons, h, List.countP_cons, ih]

theorem parseLine_isSome (line : String) :
    (parseLine line).isSome = decide (3 ≤ (jsSplit line '\t').length) := by
  simp only [parseLine, List.length_map]
  by_cases h : 3 ≤ (jsSplit line '\t').length <;> simp [h]

theorem totpTest_iff (s : String) : totpTest s = true ↔ RotatingCodeSpec s := by
  simp [totpTest, RotatingCodeSpec, List.all_eq_true]

/-- **C4.** For every account-file text, `parseAccounts` yields exactly one
credential per valid line (non-empty after trimming, at least three
tab-separated fields), and a credential is classified as a rotating-code
(TOTP) secret iff its third field, stripped of all whitespace, is
uppercase-alphanumeric of length at least 16. -/
theorem parseAccounts_spec (content : String) :
    (parseAccounts content).length = (jsSplit content '\n').countP validLine ∧
    ∀ a ∈ parseAccounts content, (a.isTotp = true ↔ RotatingCodeSpec a.twoStepCode) := by
  constructor
  · rw [parseAccounts, length_filterMap_eq_countP, List.countP_filter]
    apply List.countP_congr
    intro l _
    rw [parseLine_isSome, validLine]
    by_cases h1 : (jsTrim l).isEmpty <;>
      by_cases h2 : 3 ≤ (jsSplit l '\t').length <;> simp [h1, h2]
  · intro a ha
    rw [parseAccounts] at ha
    obtain ⟨l, _, hl⟩ := List.mem_filterMap.mp ha
    rw [parseLine] at hl
    by_cases h : 3 ≤ ((jsSplit l '\t').map jsTrim).length
    · rw [if_pos h] at hl
      cases hl
      simpa using totpTest_iff _
    · rw [if_neg h] at hl
      cases hl

theorem getNextAccount_fresh (A : List AccountInfo) :
    getNextAccount ⟨A, []⟩ = (A.head?, ⟨A, []⟩) := by
  cases A with
  | nil => rfl
  | cons a as => simp [getNextAccount]

theorem find?_first (p : α → Bool) (l1 : List α) (a : α) (l2 : List α)
    (h1 : ∀ b ∈ l1, p b = false) (ha : p a = true) :
    (l1 ++ a :: l2).find? p = some a := by
  induction l1 with
  | nil => simp [List.find?_cons, ha]
  | cons b bs ih =>
    have hb := h1 b (by simp)
    simp only [List.cons_append, List.find?_cons, hb]
    exact ih fun x hx => h1 x (by simp [hx])

theorem mgrInv_markUsed (s : AccountManagerState) (h : MgrInv s) (e : String)
    (he : e ∈ s.accounts.map AccountInfo.email) :
    MgrInv (markAccountAsUsed s e) ∧ (markAccountAsUsed s e).accounts = s.accounts := by
  obtain ⟨h1, h2, h3⟩ := h
  by_cases hc : s.usedAccounts.contains e
  · rw [markAccountAsUsed, if_pos hc]
    exact ⟨⟨h1, h2, h3⟩, rfl⟩
  · rw [markAccountAsUsed, if_neg hc]
    refine ⟨⟨h1, ?_, ?_⟩, rfl⟩
    · show (s.usedAccounts ++ [e]).Nodup
      rw [List.nodup_append]
      refine ⟨h2, List.nodup_singleton e, ?_⟩
      intro x hx hx'
      simp only [List.mem_singleton] at hx'
      subst hx'
      exact hc (List.elem_iff.mpr hx)
    · show ∀ x ∈ s.usedAccounts ++ [e], x ∈ s.accounts.map AccountInfo.email
      intro x hx
      rcases List.mem_append.mp hx with hx | hx
      · exact h3 x hx
      · simp only [List.mem_singleton] at hx
        subst hx
        exact he

theorem usedAll_length (s : AccountManagerState) (h : MgrInv s)
    (hall : ∀ a ∈ s.accounts, a.email ∈ s.usedAccounts) :
    s.usedAccounts.length = s.accounts.length := by
  obtain ⟨h1, h2, h3⟩ := h
  have e1 : s.usedAccounts.toFinset = (s.accounts.map AccountInfo.email).toFinset := by
    ext x
    simp only [List.mem_toFinset]
    constructor
    · exact h3 x
    · intro hx
      obtain ⟨a, ha, rfl⟩ := List.mem_map.mp hx
      exact hall a ha
  calc s.usedAccounts.length
      = s.usedAccounts.toFinset.card := (List.toFinset_card_of_nodup h2).symm
    _ = (s.accounts.map AccountInfo.email).toFinset.card := by rw [e1]
    _ = (s.accounts.map AccountInfo.email).length := List.toFinset_card_of_nodup h1
    _ = s.accounts.length := List.length_map _ _

theorem getNextAccount_total (s : AccountManagerState) (h : MgrInv s) (hne : s.accounts ≠ []) :
    ∃ a, (getNextAccount s).1 = some a ∧ a ∈ s.accounts ∧
      (getNextAccount s).2.accounts = s.accounts ∧ MgrInv (getNextAccount s).2 := by
  rcases hf : s.accounts.find? (fun a => !s.usedAccounts.contains a.email) with _ | a
  · have hall : ∀ a ∈ s.accounts, a.email ∈ s.usedAccounts := by
      intro a ha
      have := List.find?_eq_none.mp hf a ha
      simpa using this
    have hlen := usedAll_length s h hall
    have hg : getNextAccount s = (s.accounts.head?, { s with usedAccounts := [] }) := by
      unfold getNextAccount
      rw [hf, if_pos hlen]
    rcases hA : s.accounts with _ | ⟨a, as⟩
    · exact absurd hA hne
    · refine ⟨a, ?_, by simp [hA], ?_, ?_⟩
      · rw [hg, hA]
        rfl
      · rw [hg, hA]
      · rw [hg]
        exact ⟨h.1, List.nodup_nil, by simp⟩
  · have hg : getNextAccount s = (some a, s) := by
      unfold getNextAccount
      rw [hf]
    have ha := List.mem_of_find?_eq_some hf
    exact ⟨a, by rw [hg], ha, by rw [hg], by rw [hg]; exact h⟩

/-- **C2 (counterexample).** The claim says that enqueueing `n` tasks against
a store with `K < n` available credentials yields exactly `K` tasks.  With
one available credential and two requested tasks, the `addTasks` loop
produces two tasks, not one: when the store is exhausted, `getNextAccount`
clears the used-set and starts a new cycle instead of returning `null`. -/
theorem addTasks_shortfall_cex :
    ¬ ((addTasksLoop 2 ⟨[acctA], []⟩).1.length = 1) := by decide

/-- **C2 (amended).** Enqueueing `n` tasks against a non-empty store whose
account emails are distinct yields exactly `n` tasks: the loop never runs
short, because exhausting the store makes `getNextAccount` clear the
used-set and hand out credentials cyclically.  (The shortfall warning can
fire only in degenerate stores, e.g. duplicated emails.)  The loop is a
total function, so it never blocks waiting for accounts. -/
theorem addTasks_cycles (n : Nat) (s : AccountManagerState) (h : MgrInv s)
    (hne : s.accounts ≠ []) :
    (addTasksLoop n s).1.length = n := by
  induction n generalizing s with
  | zero => rfl
  | succ n ih =>
    obtain ⟨a, ha1, ha2, ha3, ha4⟩ := getNextAccount_total s h hne
    have hg : getNextAccount s = (some a, (getNextAccount s).2) := by
      rw [← ha1]
    have hmem : a.email ∈ (getNextAccount s).2.accounts.map AccountInfo.email := by
      rw [ha3]
      exact List.mem_map_of_mem _ ha2
    obtain ⟨hinv2, hacc2⟩ := mgrInv_markUsed (getNextAccount s).2 ha4 a.email hmem
    have hne2 : (markAccountAsUsed (getNextAccount s).2 a.email).accounts ≠ [] := by
      rw [hacc2, ha3]
      exact hne
    show (addTasksLoop (n + 1) s).1.length = n + 1
    rw [addTasksLoop, hg]
    simpa using ih (markAccountAsUsed (getNextAccount s).2 a.email) hinv2 hne2

/-- **C2 (witness for the amended claim).** -/
theorem addTasks_cycles_witness :
    (addTasksLoop 3 ⟨[acctA], []⟩).1.length = 3 :=
  addTasks_cycles 3 ⟨[acctA], []⟩ (by decide) (by decide)

/-- **C3.** For a loaded store with distinct emails and a well-formed
used-set: (1) `getNextAccount` returns the first credential not yet marked
used in the current cycle; (2) once every credential is marked used, the
next call clears the used-set and returns the same credential as the very
first call after load; (3) it returns `null` exactly when the store is
empty. -/
theorem getNextAccount_cycle_spec (s : AccountManagerState) (h : MgrInv s) :
    (∀ l1 a l2, s.accounts = l1 ++ a :: l2 →
        (∀ b ∈ l1, b.email ∈ s.usedAccounts) → a.email ∉ s.usedAccounts →
        (getNextAccount s).1 = some a) ∧
    ((∀ a ∈ s.accounts, a.email ∈ s.usedAccounts) →
        (getNextAccount s).2.usedAccounts = [] ∧
        (getNextAccount s).1 = (getNextAccount ⟨s.accounts, []⟩).1) ∧
    ((getNextAccount s).1 = none ↔ s.accounts = []) := by
  refine ⟨?_, ?_, ?_⟩
  · intro l1 a l2 hacc hused hfree
    have hf : s.accounts.find? (fun a => !s.usedAccounts.contains a.email) = some a := by
      rw [hacc]
      refine find?_first _ _ _ _ ?_ ?_
      · intro b hb
        simpa using hused b hb
      · simpa using hfree
    unfold getNextAccount
    rw [hf]
  · intro hall
    have hf : s.accounts.find? (fun a => !s.usedAccounts.contains a.email) = none := by
      refine List.find?_eq_none.mpr ?_
      intro a ha
      simpa using hall a ha
    have hlen := usedAll_length s h hall
    have hg : getNextAccount s = (s.accounts.head?, { s with usedAccounts := [] }) := by
      unfold getNextAccount
      rw [hf, if_pos hlen]
    rw [hg, getNextAccount_fresh]
    exact ⟨rfl, rfl⟩
  · constructor
    · intro hnone
      by_contra hne
      obtain ⟨a, ha1, _, _, _⟩ := getNextAccount_total s h hne
      rw [ha1] at hnone
      exact Option.some_ne_none a hnone
    · intro hA
      have hused : s.usedAccounts = [] := by
        rcases hu : s.usedAccounts with _ | ⟨e, es⟩
        · rfl
        · have := h.2.2 e (by rw [hu]; simp)
          rw [hA] at this
          simp at this
      have hf : s.accounts.find? (fun a => !s.usedAccounts.contains a.email) = none := by
        rw [hA]
        rfl
      have hg : getNextAccount s = (s.accounts.head?, { s with usedAccounts := [] }) := by
        unfold getNextAccount
        rw [hf, if_pos (by simp [hA, hused])]
      rw [hg, hA]
      rfl

/-- **C3 (witness).** A two-account store with both credentials marked used:
the next call clears the used-set and returns the head credential again,
and the result is non-`null`. -/
theorem getNextAccount_cycle_spec_witness :
    ((getNextAccount ⟨[acctA, acctB], ["user1@gmail.com", "user2@gmail.com"]⟩).2.usedAccounts = [] ∧
      (getNextAccount ⟨[acctA, acctB], ["user1@gmail.com", "user2@gmail.com"]⟩).1 =
        (getNextAccount ⟨[acctA, acctB], []⟩).1) ∧
    ¬ ((getNextAccount ⟨[acctA, acctB], ["user1@gmail.com", "user2@gmail.com"]⟩).1 = none) := by
  have h := getNextAccount_cycle_spec ⟨[acctA, acctB], ["user1@gmail.com", "user2@gmail.com"]⟩
    (by decide)
  exact ⟨h.2.1 (by decide), fun hn => (by decide : ¬ ([acctA, acctB] = [])) (h.2.2.mp hn)⟩

/-- **C4 (witness).** On a two-line account file using the spec's own
examples, `parseAccounts` yields one credential per valid line, classifies
the uppercase 32-character secret as a rotating code, and the spaced
lowercase secret as a static secret. -/
theorem parseAccounts_spec_witness :
    (parseAccounts "user1@gmail.com\tpw1\tQEJA633DACRGZM25AD6PHHHYB3MWHACW\nuser2@gmail.com\tpw2\tu5pg omhv bx23 stji 7wrw jesx l4ja lfz7").length = 2 ∧
    (acctA.isTotp = true ↔ RotatingCodeSpec acctA.twoStepCode) ∧
    (acctB.isTotp = true ↔ RotatingCodeSpec acctB.twoStepCode) := by
  have h := parseAccounts_spec
    "user1@gmail.com\tpw1\tQEJA633DACRGZM25AD6PHHHYB3MWHACW\nuser2@gmail.com\tpw2\tu5pg omhv bx23 stji 7wrw jesx l4ja lfz7"
  exact ⟨h.1.trans (by decide), h.2 acctA (by decide), h.2 acctB (by decide)⟩

theorem admitPhase_reachable (poolSize : Nat) (init : List PoolTask)
    (pending running : List PoolTask) (results : List (PoolTask × TaskResult))
    (h : PoolReach poolSize init ⟨pending, running, results⟩) :
    PoolReach poolSize init
      ⟨(admitPhase poolSize pending running).1, (admitPhase poolSize pending running).2, results⟩ := by
  induction pending generalizing running with
  | nil => exact h
  | cons t rest ih =>
    by_cases hlt : running.length < poolSize
    · have hstep : PoolStep poolSize ⟨t :: rest, running, results⟩ ⟨rest, t :: running, results⟩ :=
        PoolStep.launch t rest ⟨t :: rest, running, results⟩ hlt rfl
      have h' := PoolReach.step h hstep
      have := ih (t :: running) h'
      simpa [admitPhase, hlt] using this
    · simpa [admitPhase, hlt] using h

theorem poolStep_running_le {poolSize : Nat} {s s' : PoolState}
    (hs : PoolStep poolSize s s') (h : s.running.length ≤ poolSize) :
    s'.running.length ≤ poolSize := by
  cases hs with
  | launch t rest s hlt hp => exact hlt
  | finishSuccess t d s hmem =>
    exact le_trans (List.Sublist.length_le (List.erase_sublist t s.running)) h
  | finishFailure t err s hmem =>
    exact le_trans (List.Sublist.length_le (List.erase_sublist t s.running)) h

theorem poolStep_perm {poolSize : Nat} {s s' : PoolState} (hs : PoolStep poolSize s s') :
    List.Perm (s'.pending ++ s'.running ++ s'.results.map Prod.fst)
      (s.pending ++ s.running ++ s.results.map Prod.fst) ∧
    ∀ r ∈ s'.results, r ∈ s.results ∨ r.2.attempts = 1 := by
  cases hs with
  | launch t rest s hlt hp =>
    refine ⟨?_, fun r hr => Or.inl hr⟩
    show List.Perm (rest ++ (t :: s.running) ++ s.results.map Prod.fst)
      (s.pending ++ s.running ++ s.results.map Prod.fst)
    rw [hp]
    simp only [List.append_assoc, List.cons_append]
    exact List.perm_middle
  | finishSuccess t d s hmem =>
    constructor
    · show List.Perm
        (s.pending ++ s.running.erase t ++ ((t, successResult t.email d) :: s.results).map Prod.fst)
        (s.pending ++ s.running ++ s.results.map Prod.fst)
      simp only [List.map_cons, List.append_assoc]
      refine List.Perm.append_left _ ?_
      exact List.Perm.trans List.perm_middle ((List.perm_cons_erase hmem).append_right _).symm
    · intro r hr
      rcases List.mem_cons.mp hr with hr | hr
      · right
        rw [hr]
        rfl
      · left
        exact hr
  | finishFailure t err s hmem =>
    constructor
    · show List.Perm
        (s.pending ++ s.running.erase t ++ ((t, failureResult t.email err) :: s.results).map Prod.fst)
        (s.pending ++ s.running ++ s.results.map Prod.fst)
      simp only [List.map_cons, List.append_assoc]
      refine List.Perm.append_left _ ?_
      exact List.Perm.trans List.perm_middle ((List.perm_cons_erase hmem).append_right _).symm
    · intro r hr
      rcases List.mem_cons.mp hr with hr | hr
      · right
        rw [hr]
        rfl
      · left
        exact hr

/-- **C1.** Pool admission invariant.  (1) In every state `run()` can reach,
the number of running tasks never exceeds `poolSize`.  (2) The admission
loop never stops while there is both spare capacity and pending work: when
it returns, either the running set is full or the pending queue is empty.
(3) The admission loop itself only takes legal pool transitions (each of
which starts one new task), so the bound in (1) also holds at every instant
inside it. -/
theorem pool_admission_invariant (poolSize : Nat) (init : List PoolTask) :
    (∀ s, PoolReach poolSize init s → s.running.length ≤ poolSize) ∧
    (∀ pending running, ¬ ((admitPhase poolSize pending running).2.length < poolSize ∧
        (admitPhase poolSize pending running).1 ≠ [])) ∧
    (∀ pending running results, PoolReach poolSize init ⟨pending, running, results⟩ →
      PoolReach poolSize init
        ⟨(admitPhase poolSize pending running).1, (admitPhase poolSize pending running).2,
          results⟩) := by
  refine ⟨?_, ?_, ?_⟩
  · intro s h
    induction h with
    | start => exact Nat.zero_le _
    | step hr hs ih => exact poolStep_running_le hs ih
  · intro pending
    induction pending with
    | nil =>
      intro running h
      exact h.2 rfl
    | cons t rest ih =>
      intro running
      by_cases hlt : running.length < poolSize
      · simpa [admitPhase, hlt] using ih (t :: running)
      · simp [admitPhase, hlt]
  · intro pending running results h
    exact admitPhase_reachable poolSize init pending running results h

/-- **C1 (witness).** A pool of size 2 that admitted its single task
satisfies the bound, and the admission loop on a concrete three-task queue
leaves no spare capacity with pending work. -/
theorem pool_admission_invariant_witness :
    (⟨[], [⟨1, "user1@gmail.com"⟩], []⟩ : PoolState).running.length ≤ 2 ∧
    ¬ ((admitPhase 2 [⟨1, "a"⟩, ⟨2, "b"⟩, ⟨3, "c"⟩] []).2.length < 2 ∧
        (admitPhase 2 [⟨1, "a"⟩, ⟨2, "b"⟩, ⟨3, "c"⟩] []).1 ≠ []) := by
  constructor
  · exact (pool_admission_invariant 2 [⟨1, "user1@gmail.com"⟩]).1
      ⟨[], [⟨1, "user1@gmail.com"⟩], []⟩
      (PoolReach.step PoolReach.start
        (PoolStep.launch ⟨1, "user1@gmail.com"⟩ [] ⟨[⟨1, "user1@gmail.com"⟩], [], []⟩
          (by decide) rfl))
  · exact (pool_admission_invariant 2 []).2.1 [⟨1, "a"⟩, ⟨2, "b"⟩, ⟨3, "c"⟩] []

/-- **C6.** Exactly-once execution: in every reachable pool state the
pending queue, the running set and the executed tasks together are a
permutation of the enqueued tasks — no task is re-queued or run a second
time, and once the pool drains (`pending = []`, `running = []`) the
executed tasks are exactly the enqueued ones — and every result record
carries attempt count 1. -/
theorem pool_exactly_once (poolSize : Nat) (init : List PoolTask) (s : PoolState)
    (h : PoolReach poolSize init s) :
    List.Perm (s.pending ++ s.running ++ s.results.map Prod.fst) init ∧
    ∀ r ∈ s.results, r.2.attempts = 1 := by
  induction h with
  | start => exact ⟨by simp, by simp⟩
  | step hr hs ih =>
    obtain ⟨ih1, ih2⟩ := ih
    obtain ⟨hperm, hres⟩ := poolStep_perm hs
    refine ⟨hperm.trans ih1, ?_⟩
    intro r hrr
    rcases hres r hrr with hcase | hcase
    · exact ih2 r hcase
    · exact hcase

/-- **C6 (witness).** A pool of size 1 that admitted and finished its one
task: the executed tasks are a permutation of the enqueued tasks and the
single record has attempt count 1. -/
theorem pool_exactly_once_witness :
    List.Perm (([] : List PoolTask) ++ [] ++
        ([(⟨1, "a"⟩, successResult "a" 5)].map Prod.fst)) [⟨1, "a"⟩] ∧
    ∀ r ∈ [((⟨1, "a"⟩ : PoolTask), successResult "a" 5)], r.2.attempts = 1 :=
  pool_exactly_once 1 [⟨1, "a"⟩] ⟨[], [], [(⟨1, "a"⟩, successResult "a" 5)]⟩
    (PoolReach.step
      (PoolReach.step PoolReach.start
        (PoolStep.launch ⟨1, "a"⟩ [] ⟨[⟨1, "a"⟩], [], []⟩ (by decide) rfl))
      (PoolStep.finishSuccess ⟨1, "a"⟩ 5 ⟨[], [⟨1, "a"⟩], []⟩ (by decide)))

/-- **C5.** Stall error mapping: once the URL has been unchanged long enough
that the stall counter exceeds 15 (and the post-reload sentinel is not set),
the iteration throws — `invalid-credentials` when the stalled URL is the
password-entry pattern, `invalid-second-factor` when it is the
second-factor-entry pattern, and the generic `too-many-retries` otherwise;
and a URL frozen on the password-entry pattern indeed drives a fresh run
into `invalid-credentials` after the >15 one-second polls. -/
theorem stall_error_mapping (twoStepCode : String) (opt : Bool) (rawUrl : String)
    (s : DriverState) (hurl : (jsSplit rawUrl '?').headD "" = s.lastUrl)
    (hrc : s.retryCount ≠ -1) (h15 : 15 < s.retryCount) :
    (sIncludes s.lastUrl "challenge/pwd" = true →
      loginStep twoStepCode opt rawUrl s = .fail .invalidCredentials) ∧
    (sIncludes s.lastUrl "challenge/pwd" = false →
      sIncludes s.lastUrl "challenge/totp" = true →
      loginStep twoStepCode opt rawUrl s = .fail .invalidSecondFactor) ∧
    (sIncludes s.lastUrl "challenge/pwd" = false →
      sIncludes s.lastUrl "challenge/totp" = false →
      loginStep twoStepCode opt rawUrl s = .fail .tooManyRetries) ∧
    runFrozen "pw" false pwdUrl ⟨"", 0⟩ 17 = .fail .invalidCredentials := by
  have hurl' : (jsSplit rawUrl '?').head?.getD "" = s.lastUrl := by
    simpa [List.headD_eq_head?_getD] using hurl
  refine ⟨?_, ?_, ?_, by decide⟩
  · intro h1
    simp [loginStep, hurl', hrc, h15, h1]
  · intro h1 h2
    simp [loginStep, hurl', hrc, h15, h1, h2]
  · intro h1 h2
    simp [loginStep, hurl', hrc, h15, h1, h2]

/-- **C5 (witness).** A state stalled on the password-entry URL with counter
16 fails with `invalid-credentials`. -/
theorem stall_error_mapping_witness :
    loginStep "pw" false pwdUrl ⟨pwdUrl, 16⟩ = .fail .invalidCredentials :=
  (stall_error_mapping "pw" false pwdUrl ⟨pwdUrl, 16⟩ (by decide) (by decide)
    (by decide)).1 (by decide)

theorem identOrbit_closed : identOrbit.all identStepOk = true := by decide

/-- **C8.** Identifier-entry reload special case: when the driver has
stalled more than 5 (but not more than 15) times on a URL matching the
identifier-entry pattern, the iteration reloads the page and sets the
counter to the `-1` sentinel; consequently, on a permanently frozen
identifier-entry URL the counter never exceeds 6 and no iteration ever
throws — those stalls never reach the 15-stall ceiling. -/
theorem identifier_reload (twoStepCode : String) (opt : Bool) (rawUrl : String)
    (s : DriverState) (hurl : (jsSplit rawUrl '?').headD "" = s.lastUrl)
    (hrc : s.retryCount ≠ -1) (h5 : 5 < s.retryCount) (h15 : s.retryCount ≤ 15)
    (hid : sIncludes s.lastUrl "signin/identifier" = true) :
    loginStep twoStepCode opt rawUrl s =
      .next { s with retryCount := -1 } DriverAction.reload ∧
    (∀ n, ∃ s', frozenStates "pw" false identUrl ⟨"", 0⟩ n = some s' ∧
      s' ∈ identOrbit ∧ s'.retryCount ≤ 6 ∧
      isFailResult (loginStep "pw" false identUrl s') = false) := by
  have hurl' : (jsSplit rawUrl '?').head?.getD "" = s.lastUrl := by
    simpa [List.headD_eq_head?_getD] using hurl
  constructor
  · have hnot15 : ¬ (15 < s.retryCount) := not_lt.mpr h15
    simp [loginStep, hurl', hrc, hnot15, h5, hid]
  · intro n
    induction n with
    | zero => exact ⟨⟨"", 0⟩, rfl, by decide, by decide, by decide⟩
    | succ n ih =>
      obtain ⟨s', hs', hmem, _, _⟩ := ih
      have hok : identStepOk s' = true := List.all_eq_true.mp identOrbit_closed s' hmem
      rcases hstep : loginStep "pw" false identUrl s' with _ | e | ⟨s'', a⟩
      · simp [identStepOk, hstep] at hok
      · simp [identStepOk, hstep] at hok
      · simp only [identStepOk, hstep, Bool.and_eq_true, decide_eq_true_eq] at hok
        obtain ⟨hc, hb⟩ := hok
        have hmem'' : s'' ∈ identOrbit := List.elem_iff.mp hc
        have hok'' : identStepOk s'' = true := List.all_eq_true.mp identOrbit_closed s'' hmem''
        refine ⟨s'', ?_, hmem'', hb, ?_⟩
        · simp [frozenStates, hs', hstep]
        · rcases hstep'' : loginStep "pw" false identUrl s'' with _ | e | ⟨s3, a3⟩
          · rfl
          · simp [identStepOk, hstep''] at hok''
          · rfl

/-- **C8 (witness).** Stalled six times on the identifier-entry URL: the
step reloads and resets the counter to the sentinel. -/
theorem identifier_reload_witness :
    loginStep "pw" false identUrl ⟨identUrl, 6⟩ =
      .next { lastUrl := identUrl, retryCount := -1 } DriverAction.reload :=
  (identifier_reload "pw" false identUrl ⟨identUrl, 6⟩ (by decide) (by decide)
    (by decide) (by decide) (by decide)).1

theorem waitManualGo_none (pattern : String) (urls : Nat → String) :
    ∀ fuel k, (waitManualGo pattern urls fuel k).2 = none ↔
      ∀ j, k ≤ j → j < k + fuel → sIncludes (urls j) pattern = true := by
  intro fuel
  induction fuel with
  | zero =>
    intro k
    constructor
    · intro _ j h1 h2
      omega
    · intro _
      rfl
  | succ fuel ih =>
    intro k
    by_cases h : sIncludes (urls k) pattern = true
    · have he : (waitManualGo pattern urls (fuel + 1) k).2 =
          (waitManualGo pattern urls fuel (k + 1)).2 := by
        simp [waitManualGo, h]
      rw [he, ih (k + 1)]
      constructor
      · intro hall j h1 h2
        rcases Nat.eq_or_lt_of_le h1 with rfl | hlt
        · exact h
        · exact hall j hlt (by omega)
      · intro hall j h1 h2
        exact hall j (by omega) (by omega)
    · have hfalse : sIncludes (urls k) pattern = false := by
        simpa using h
      have he : (waitManualGo pattern urls (fuel + 1) k).2 = some k := by
        simp [waitManualGo, hfalse]
      rw [he]
      constructor
      · intro hnone
        exact absurd hnone (by simp)
      · intro hall
        exact absurd (hall k le_rfl (by omega)) (by simp [hfalse])

theorem waitManualGo_some (pattern : String) (urls : Nat → String) :
    ∀ fuel k m, (waitManualGo pattern urls fuel k).2 = some m →
      sIncludes (urls m) pattern = false ∧ k ≤ m ∧
        ∀ j, k ≤ j → j < m → sIncludes (urls j) pattern = true := by
  intro fuel
  induction fuel with
  | zero =>
    intro k m h
    exact absurd h (by simp [waitManualGo])
  | succ fuel ih =>
    intro k m h
    by_cases hk : sIncludes (urls k) pattern = true
    · have h' : (waitManualGo pattern urls fuel (k + 1)).2 = some m := by
        simpa [waitManualGo, hk] using h
      obtain ⟨hm, hkm, hall⟩ := ih (k + 1) m h'
      refine ⟨hm, by omega, ?_⟩
      intro j h1 h2
      rcases Nat.eq_or_lt_of_le h1 with rfl | hlt
      · exact hk
      · exact hall j hlt h2
    · have hfalse : sIncludes (urls k) pattern = false := by
        simpa using hk
      have hkm : k = m := by
        simpa [waitManualGo, hfalse] using h
      subst hkm
      exact ⟨hfalse, le_rfl, fun j h1 h2 => absurd h2 (by omega)⟩

/-- **C9.** Manual-intervention wait.  For every pattern and URL trace:
(1) the wait is still blocked after `fuel` polls exactly when every one of
those polls matched the pattern — it can only return because the URL
stopped matching, never by timeout; (2) when it returns at poll `k`, the
URL at `k` no longer matches and every earlier poll matched; (3) the page
is flagged first (bring to front, add the animated border overlay); (4) and
when the wait returns the border is removed last.  (5) In the main dispatch
loop, a poll stalled on a URL matching a manual-intervention pattern leaves
the stall counter unchanged and does not fail. -/
theorem manual_wait_spec :
    (∀ pattern urls fuel, ((waitForManualVerification pattern urls fuel).2 = none ↔
        ∀ k < fuel, sIncludes (urls k) pattern = true)) ∧
    (∀ pattern urls fuel k, (waitForManualVerification pattern urls fuel).2 = some k →
        sIncludes (urls k) pattern = false ∧ ∀ j < k, sIncludes (urls j) pattern = true) ∧
    (∀ pattern urls fuel, (waitForManualVerification pattern urls fuel).1.take 2 =
        [ManualEv.bringToFront, ManualEv.addBorder]) ∧
    (∀ pattern urls fuel, (waitForManualVerification pattern urls fuel).2.isSome = true →
        (waitForManualVerification pattern urls fuel).1.getLast? = some ManualEv.removeBorder) ∧
    (∀ twoStepCode opt rawUrl s p, p ∈ manualPatterns →
        sIncludes s.lastUrl p = true →
        (jsSplit rawUrl '?').headD "" = s.lastUrl →
        s.retryCount ≠ -1 → s.retryCount ≤ 15 →
        ¬ (5 < s.retryCount ∧ sIncludes s.lastUrl "signin/identifier" = true) →
        loginStep twoStepCode opt rawUrl s = .next s .sleepPoll) := by
  refine ⟨?_, ?_, ?_, ?_, ?_⟩
  · intro pattern urls fuel
    show (waitManualGo pattern urls fuel 0).2 = none ↔ _
    rw [waitManualGo_none pattern urls fuel 0]
    constructor
    · intro hall k hk
      exact hall k (Nat.zero_le k) (by omega)
    · intro hall j _ h2
      exact hall j (by omega)
  · intro pattern urls fuel k h
    obtain ⟨hm, _, hall⟩ := waitManualGo_some pattern urls fuel 0 k h
    exact ⟨hm, fun j hj => hall j (Nat.zero_le j) hj⟩
  · intro pattern urls fuel
    rfl
  · intro pattern urls fuel h
    have h' : (waitManualGo pattern urls fuel 0).2.isSome = true := h
    show ([ManualEv.bringToFront, ManualEv.addBorder] ++ (waitManualGo pattern urls fuel 0).1 ++
        (if (waitManualGo pattern urls fuel 0).2.isSome then [ManualEv.removeBorder]
         else [])).getLast? = some ManualEv.removeBorder
    rw [if_pos h', List.getLast?_append_of_ne_nil _ (by simp)]
    rfl
  · intro twoStepCode opt rawUrl s p hp hmatch hurl hrc h15 hnotid
    have hurl' : (jsSplit rawUrl '?').head?.getD "" = s.lastUrl := by
      simpa [List.headD_eq_head?_getD] using hurl
    have hpn : p ∈ noNeedCountUrlMatch := by
      simp only [manualPatterns, List.mem_cons, List.not_mem_nil, or_false] at hp
      rcases hp with rfl | rfl | rfl | rfl | rfl <;> decide
    have hany : noNeedCountUrlMatch.any (fun q => sIncludes s.lastUrl q) = true :=
      List.any_eq_true.mpr ⟨p, hpn, hmatch⟩
    have hnot15 : ¬ (15 < s.retryCount) := not_lt.mpr h15
    simp [loginStep, hurl', hrc, hnot15, hnotid, hany]

/-- **C9 (witness).** A poll stalled on the phone-binding
manual-intervention URL with counter 0: the step sleeps, leaving state and
counter untouched. -/
theorem manual_wait_spec_witness :
    loginStep "pw" false iapUrl ⟨iapUrl, 0⟩ = .next ⟨iapUrl, 0⟩ DriverAction.sleepPoll :=
  manual_wait_spec.2.2.2.2 "pw" false iapUrl ⟨iapUrl, 0⟩ "challenge/iap"
    (by decide) (by decide) (by decide) (by decide) (by decide) (by decide)

/-- **C7 (counterexample).** The claim says the Session is torn down
(process killed, client closed) whether the task succeeds or fails.  On the
success path `main` only brings the page to front — the browser process is
not killed (and the client not closed); the session deliberately outlives
the task. -/
theorem session_teardown_cex :
    TaskEffect.killProcess ∉ executeTaskEffects "user1@gmail.com" 5 none := by decide

/-- **C7 (amended).** Whatever the outcome, `executeTask` appends exactly
one result record for the task and removes the account's profile
directory; the browser process is killed and the automation client closed
only on the failure path — on success the session is left open (the page
is merely brought to front). -/
theorem executeTask_teardown (email : String) (d : Nat) (o : Option String) :
    ((executeTaskEffects email d o).countP isAppendRecord = 1) ∧
    TaskEffect.removeProfile email ∈ executeTaskEffects email d o ∧
    (∀ e, o = some e → TaskEffect.killProcess ∈ executeTaskEffects email d o ∧
        TaskEffect.closeBrowser ∈ executeTaskEffects email d o) ∧
    (o = none → TaskEffect.killProcess ∉ executeTaskEffects email d o ∧
        TaskEffect.closeBrowser ∉ executeTaskEffects email d o) := by
  cases o with
  | none =>
    refine ⟨?_, ?_, ?_, ?_⟩
    · simp [executeTaskEffects, mainEffects, List.countP_cons, isAppendRecord]
    · simp [executeTaskEffects, mainEffects]
    · intro e h
      simp at h
    · intro _
      constructor <;> simp [executeTaskEffects, mainEffects]
  | some e =>
    refine ⟨?_, ?_, ?_, ?_⟩
    · simp [executeTaskEffects, mainEffects, List.countP_cons, isAppendRecord]
    · simp [executeTaskEffects, mainEffects]
    · intro e' _
      constructor <;> simp [executeTaskEffects, mainEffects]
    · intro h
      simp at h

/-- **C7 (witness for the amended claim).** On a failed task the browser
process is killed. -/
theorem executeTask_teardown_witness :
    TaskEffect.killProcess ∈ executeTaskEffects "user1@gmail.com" 5 (some "boom") :=
  ((executeTask_teardown "user1@gmail.com" 5 (some "boom")).2.2.1 "boom" rfl).1

/-- **C10.** `calculateWindowPosition` is a pure function of the port and
the email's code units (determinism is definitional), and its result always
satisfies `50 ≤ x ≤ 790` and `50 ≤ y ≤ 260` — the window stays on the
assumed 1920×1080 screen. -/
theorem calculateWindowPosition_spec (port : Nat) (email : List Nat) :
    calculateWindowPosition port email = calculateWindowPosition port email ∧
    50 ≤ (calculateWindowPosition port email).1 ∧
    (calculateWindowPosition port email).1 ≤ 790 ∧
    50 ≤ (calculateWindowPosition port email).2 ∧
    (calculateWindowPosition port email).2 ≤ 260 := by
  have hx : (calculateWindowPosition port email).1 =
      min (50 + (((calcHash port email).natAbs % 8 : Nat) : Int) * 150)
        (1920 - 1080 - 50) := rfl
  have hy : (calculateWindowPosition port email).2 =
      min (50 + ((((calcHash port email).fdiv 256).natAbs % 6 : Nat) : Int) * 120)
        (1080 - 720 - 100) := rfl
  refine ⟨rfl, ?_, ?_, ?_, ?_⟩
  · rw [hx]
    refine le_min ?_ (by norm_num)
    have h0 : (0 : Int) ≤ (((calcHash port email).natAbs % 8 : Nat) : Int) :=
      Int.natCast_nonneg _
    omega
  · rw [hx]
    exact le_trans (min_le_right _ _) (by norm_num)
  · rw [hy]
    refine le_min ?_ (by norm_num)
    have h0 : (0 : Int) ≤ ((((calcHash port email).fdiv 256).natAbs % 6 : Nat) : Int) :=
      Int.natCast_nonneg _
    omega
  · rw [hy]
    exact le_trans (min_le_right _ _) (by norm_num)
